import Mathlib

/-!
# Verification of the rascii software renderer core

Shallow embedding of the rascii repository (a terminal ASCII 3D renderer)
into Lean 4, together with theorems settling the frozen claims about its
specification.

Modelling conventions:
* C++ `float` values are modelled as exact rationals (`ℚ`); theorems about
  float code therefore hold in exact arithmetic.  Where a claim depends on
  a transcendental library call (`tanf`), that call is abstracted as a
  function parameter, so the surrounding arithmetic stays faithful.
* C++ `int` is modelled as `ℤ` (no claim here exercises 32-bit overflow).
* Fallible or undefined-behaviour paths (negative array sizes, C++ array
  indexing out of bounds, exceptions) are modelled with `Option`.
* Unbounded loops and recursions from the source are modelled with an
  explicit fuel parameter; running out of fuel yields `none`.
-/

namespace Rascii

/-- 4-component vector, from `src/include/vec.hpp` (`struct Vec`, four floats). -/
structure Vec where
  x : ℚ
  y : ℚ
  z : ℚ
  w : ℚ
deriving DecidableEq

/-- Quaternion, from `src/include/quaternion.hpp` (`struct Quaternion`). -/
structure Quaternion where
  x : ℚ
  y : ℚ
  z : ℚ
  w : ℚ
deriving DecidableEq

/-- 4x4 matrix as a flat row-major array of 16 floats, from
`src/include/matrix.hpp` (`struct Matrix { float elements[16]; }`).
Every matrix constructed by the source has exactly 16 elements; reads
outside the list default to 0. -/
structure Matrix where
  elements : List ℚ
deriving DecidableEq

/-- `Matrix()` default constructor: the identity matrix
(`matrix.hpp` lines 22-29). -/
def Matrix.identity : Matrix :=
  ⟨[1, 0, 0, 0,
    0, 1, 0, 0,
    0, 0, 1, 0,
    0, 0, 0, 1]⟩

/-- `Matrix::at(row, col)`: `elements[row * 4 + col]` (`matrix.hpp` line 51).
Named `entry` because `at` is a Lean keyword. -/
def Matrix.entry (m : Matrix) (row col : Nat) : ℚ :=
  m.elements.getD (row * 4 + col) 0

/-- `Matrix::set(row, col, val)`: `elements[row * 4 + col] = val`
(`matrix.hpp` line 61). -/
def Matrix.set (m : Matrix) (row col : Nat) (v : ℚ) : Matrix :=
  ⟨m.elements.set (row * 4 + col) v⟩

/-- Row-by-column dot product used by `Matrix::operator*` (`matrix.hpp`
lines 224-241): the inner `for (int i = 0; i < 4; i++)` sum. -/
def Matrix.rcDot (a b : Matrix) (row col : Nat) : ℚ :=
  a.entry row 0 * b.entry 0 col + a.entry row 1 * b.entry 1 col +
    a.entry row 2 * b.entry 2 col + a.entry row 3 * b.entry 3 col

/-- `Matrix::operator*(const Matrix&)`: every entry of the result is the
row-by-column dot product (the source writes all 16 entries of an
identity-initialised result, so the result is exactly these 16 values in
row-major order). -/
def Matrix.mul (a b : Matrix) : Matrix :=
  ⟨(List.range 16).map fun k => Matrix.rcDot a b (k / 4) (k % 4)⟩

instance : Mul Matrix := ⟨Matrix.mul⟩

theorem Matrix.mul_def (a b : Matrix) : a * b = Matrix.mul a b := rfl

/-- `Matrix::submatrix(row, col)` (`matrix.hpp` lines 123-143): starts from
an identity-initialised 4x4 result and copies the 3x3 minor (this matrix
with `row` and `col` removed) into its top-left corner; row 3 and column 3
of the result keep their identity values. -/
def Matrix.submatrix (m : Matrix) (row col : Nat) : Matrix :=
  let rows := (List.range 4).filter fun i => i ≠ row
  let cols := (List.range 4).filter fun j => j ≠ col
  (List.range 3).foldl
    (fun acc ri =>
      (List.range 3).foldl
        (fun acc2 ci => acc2.set ri ci (m.entry (rows.getD ri 0) (cols.getD ci 0)))
        acc)
    Matrix.identity

/-- Fuel-limited evaluation of `Matrix::determinant` (`matrix.hpp` lines
96-104), which expands along row 0: `det += at(0, i) * cofactor(0, i)`,
where `cofactor(r, c) = pow(-1, r + c) * minor(r, c)` and
`minor(r, c) = submatrix(r, c).determinant()` (lines 107-117).
`submatrix` returns another full 4x4 `Matrix`, so each recursive call is
again the 4x4 determinant: the source recursion has no base case.  The
fuel parameter counts remaining recursion depth; `none` means the source
would still be recursing at that depth. -/
def detFuel : Nat → Matrix → Option ℚ
  | 0, _ => none
  | n + 1, m => do
    let d0 ← detFuel n (m.submatrix 0 0)
    let d1 ← detFuel n (m.submatrix 0 1)
    let d2 ← detFuel n (m.submatrix 0 2)
    let d3 ← detFuel n (m.submatrix 0 3)
    pure (m.entry 0 0 * ((-1 : ℚ) ^ (0 + 0) * d0) +
          m.entry 0 1 * ((-1 : ℚ) ^ (0 + 1) * d1) +
          m.entry 0 2 * ((-1 : ℚ) ^ (0 + 2) * d2) +
          m.entry 0 3 * ((-1 : ℚ) ^ (0 + 3) * d3))

/-- `Matrix::cofactor(row, col)` with fuel-limited determinant. -/
def cofactorFuel (n : Nat) (m : Matrix) (row col : Nat) : Option ℚ :=
  Option.map (fun d => (-1 : ℚ) ^ (row + col) * d) (detFuel n (m.submatrix row col))

/-- Fuel-limited `Matrix::inverse` (`matrix.hpp` lines 146-161): computes
the determinant, signals failure (`throw`) when it is zero, and otherwise
fills entry `(row, col)` with `cofactor(row, col) / det`. -/
def inverseFuel (n : Nat) (m : Matrix) : Option Matrix := do
  let det ← detFuel n m
  if det = 0 then none
  else
    let entries ← (List.range 16).mapM fun k =>
      Option.map (· / det) (cofactorFuel n m (k / 4) (k % 4))
    pure ⟨entries⟩

/-- The source determinant recursion never returns, at any recursion
depth: expanding along row 0 always recurses into four further full 4x4
determinants. -/
theorem detFuel_eq_none : ∀ (n : Nat) (m : Matrix), detFuel n m = none := by
  intro n
  induction n with
  | zero => intro m; rfl
  | succ k ih => intro m; simp [detFuel, ih]

/-- Claim C1: for every 4x4 matrix with nonzero determinant,
`M * M.inverse()` is approximately the identity (inverse via the classical
adjugate method).  The code cannot satisfy this for any matrix:
`determinant()` calls `cofactor(0, i)`, which calls
`minor(0, i) = submatrix(0, i).determinant()`, and `submatrix` returns
another full 4x4 `Matrix`, so the recursion has no base case and never
returns (a stack overflow at runtime).  `inverse()` calls `determinant()`
first, hence also never returns: at every recursion depth the fuel-limited
evaluation of the source's `inverse` is still incomplete. -/
theorem inverse_never_returns : ∀ (n : Nat) (m : Matrix), inverseFuel n m = none := by
  intro n m
  simp [inverseFuel, detFuel_eq_none]

/-- `Quaternion::toRotationMatrix` (`quaternion.hpp` lines 97-127). -/
def Quaternion.toRotationMatrix (q : Quaternion) : Matrix :=
  let x2 := q.x * q.x
  let y2 := q.y * q.y
  let z2 := q.z * q.z
  let xy := q.x * q.y
  let xz := q.x * q.z
  let yz := q.y * q.z
  let wx := q.w * q.x
  let wy := q.w * q.y
  let wz := q.w * q.z
  ((((((((Matrix.identity.set 0 0 (1 - 2 * (y2 + z2))).set 0 1 (2 * (xy - wz))).set 0 2
      (2 * (xz + wy))).set 1 0 (2 * (xy + wz))).set 1 1 (1 - 2 * (x2 + z2))).set 1 2
      (2 * (yz - wx))).set 2 0 (2 * (xz - wy))).set 2 1 (2 * (yz + wx))).set 2 2
      (1 - 2 * (x2 + y2))

/-- `class Transform` (`scene_graph.hpp` lines 22-97): position, rotation,
scale. -/
structure Transform where
  position : Vec
  rotation : Quaternion
  scale : Vec
deriving DecidableEq

/-- `Transform()` default constructor: position `Vec()` (all zero),
rotation the identity quaternion, scale `Vec(1, 1, 1)` (w defaults to 1). -/
def Transform.default : Transform :=
  ⟨⟨0, 0, 0, 0⟩, ⟨0, 0, 0, 1⟩, ⟨1, 1, 1, 1⟩⟩

/-- `Transform::toTransformationMatrix` (`scene_graph.hpp` lines 35-53):
bake translation and scale into an identity-initialised matrix, then
right-multiply by the rotation matrix. -/
def Transform.toTransformationMatrix (t : Transform) : Matrix :=
  let m := Matrix.identity
  let m := m.set 0 3 t.position.x
  let m := m.set 1 3 t.position.y
  let m := m.set 2 3 t.position.z
  let m := m.set 0 0 t.scale.x
  let m := m.set 1 1 t.scale.y
  let m := m.set 2 2 t.scale.z
  m * t.rotation.toRotationMatrix

/-- A `TransformNode` together with its finite acyclic parent chain
(`scene_graph.hpp` lines 124-157): a node either has no parent or has a
parent node sitting on its own chain. -/
inductive TNode where
  | root (t : Transform)
  | child (parent : TNode) (t : Transform)

/-- `TransformNode::toTransformationMatrix` (`scene_graph.hpp` lines
147-157): the local matrix, left-multiplied by the parent's (recursively
computed) world matrix when a parent exists. -/
def TNode.toTransformationMatrix : TNode → Matrix
  | .root t => t.toTransformationMatrix
  | .child p t => p.toTransformationMatrix * t.toTransformationMatrix

/-- The default (identity) transform's local matrix is the identity matrix. -/
theorem default_local_matrix :
    Transform.default.toTransformationMatrix = Matrix.identity := by
  norm_num [Transform.toTransformationMatrix, Transform.default,
    Quaternion.toRotationMatrix, Matrix.mul_def, Matrix.mul, Matrix.rcDot,
    Matrix.entry, Matrix.set, Matrix.identity, List.range_succ]

/-- The embedded matrix product of two identity matrices is the identity. -/
theorem identity_mul_identity :
    Matrix.identity * Matrix.identity = Matrix.identity := by
  norm_num [Matrix.mul_def, Matrix.mul, Matrix.rcDot, Matrix.entry,
    Matrix.identity, List.range_succ]

/-- Claim C5: a node's world matrix is the parent's world matrix multiplied
on the right by the node's local matrix (`world = parentWorld * local`;
parentless nodes use their local matrix), and a depth-3 chain of
all-identity transforms yields the identity matrix at every node. -/
theorem node_world_matrix :
    (∀ (p : TNode) (t : Transform),
        (TNode.child p t).toTransformationMatrix =
          p.toTransformationMatrix * t.toTransformationMatrix) ∧
    (TNode.root Transform.default).toTransformationMatrix = Matrix.identity ∧
    (TNode.child (TNode.root Transform.default)
        Transform.default).toTransformationMatrix = Matrix.identity ∧
    (TNode.child (TNode.child (TNode.root Transform.default) Transform.default)
        Transform.default).toTransformationMatrix = Matrix.identity := by
  refine ⟨fun p t => rfl, ?_, ?_, ?_⟩ <;>
    simp only [TNode.toTransformationMatrix, default_local_matrix,
      identity_mul_identity]

/-- `struct RenderSettings` (`render.hpp` lines 52-79): width and height
are `int`, fov and the near/far plane distances are `float`. -/
structure RenderSettings where
  width : ℤ
  height : ℤ
  fov : ℚ
  nearPlane : ℚ
  farPlane : ℚ
deriving DecidableEq

/-- A color: 4 unsigned 8-bit channels (`tex.hpp` lines 19-147). -/
structure Color where
  r : Fin 256
  g : Fin 256
  b : Fin 256
  a : Fin 256
deriving DecidableEq

/-- `Color()` default constructor: black with zero alpha. -/
def Color.black : Color := ⟨0, 0, 0, 0⟩

/-- `Color::toFloat`: converts a byte channel (0-255) to 0-1. -/
def byteToFloat (c : Fin 256) : ℚ := (c.val : ℚ) / 255

/-- `Color::getLuminance` (`tex.hpp` lines 109-119): BT.709 weighting of
the normalized channels. -/
def Color.getLuminance (c : Color) : ℚ :=
  0.2126 * byteToFloat c.r + 0.7152 * byteToFloat c.g + 0.0722 * byteToFloat c.b

/-- `struct Texture` (`tex.hpp` lines 151-291): width, height, and a flat
array of `width * height` colors. -/
structure Texture where
  width : ℤ
  height : ℤ
  pixels : List Color
deriving DecidableEq

/-- `Texture(int width, int height)` (`tex.hpp` lines 163-169): allocates
`new Color[width * height]` and fills it with `Color()`.  When
`width * height` is negative the `new[]` expression throws
`std::bad_array_new_length`, modelled as `none`; no other validation is
performed. -/
def Texture.create (w h : ℤ) : Option Texture :=
  if w * h < 0 then none
  else some ⟨w, h, List.replicate (w * h).toNat Color.black⟩

/-- `Texture::blank(c)` (`tex.hpp` lines 228-234): reinterprets the color
as an `int` and calls `memset(_pixels, colorAsInt, width * height *
sizeof(Color))`.  `memset` converts its value argument to `unsigned char`,
i.e. keeps only the low byte of `colorAsInt`, which on a little-endian
machine is the first byte of the `Color` struct: the `r` channel.  Every
byte of every 4-byte cell is therefore set to `c.r`. -/
def Texture.blank (t : Texture) (c : Color) : Texture :=
  ⟨t.width, t.height, t.pixels.map fun _ => (⟨c.r, c.r, c.r, c.r⟩ : Color)⟩

/-- `TextureDrawer::fill(c)` (`tex.hpp` lines 527-530): delegates to
`Texture::blank`. -/
def fill (t : Texture) (c : Color) : Texture := t.blank c

/-- Claim C6: `fill(c)` (via `Texture::blank`) overwrites every cell with
exactly the color `c`.  False: `blank` uses `memset`, which replicates
only the low byte of the color's `int` representation (the `r` channel)
into every byte.  At the failing input `c = (255, 0, 0, 255)` on a 2x2
texture, every cell becomes `(255, 255, 255, 255)`, not `c`; this
contradicts the function's own documentation ("Fills a texture with a
color" / "Set the memory to the color"). -/
theorem fill_replicates_low_byte :
    (fill ⟨2, 2, List.replicate 4 Color.black⟩ ⟨255, 0, 0, 255⟩).pixels =
        List.replicate 4 (⟨255, 255, 255, 255⟩ : Color) ∧
      (⟨255, 255, 255, 255⟩ : Color) ≠ (⟨255, 0, 0, 255⟩ : Color) := by
  constructor
  · rfl
  · decide

/-- `class RasciiRenderer` construction state (`render.hpp` lines 93-97):
the settings and the freshly allocated output texture. -/
structure RasciiRenderer where
  settings : RenderSettings
  output : Texture
deriving DecidableEq

/-- `RasciiRenderer(RenderSettings settings)` (`render.hpp` lines 93-97):
stores the settings and allocates a `Texture(settings.width,
settings.height)` for the output.  No validation of the settings is
performed; the only failing path is the texture allocation itself. -/
def RasciiRenderer.construct (s : RenderSettings) : Option RasciiRenderer :=
  (Texture.create s.width s.height).map fun t => ⟨s, t⟩

/-- Claim C3 counterexample: `RenderSettings` with width, height, fov,
near and far all `0` (every field non-positive) is accepted: construction
succeeds and yields a renderer (with a 0x0 output texture), instead of
failing fatally. -/
theorem renderer_construct_accepts_nonpositive :
    RasciiRenderer.construct ⟨0, 0, 0, 0, 0⟩ =
      some ⟨⟨0, 0, 0, 0, 0⟩, ⟨0, 0, []⟩⟩ := by
  rfl

/-- Claim C3 (amended): the renderer constructor performs no validation
of the settings; construction succeeds exactly when `width * height` is
non-negative (the only failure is the negative-length array allocation),
so non-positive width/height/fov/near/far values are not rejected. -/
theorem renderer_construct_iff (s : RenderSettings) :
    (RasciiRenderer.construct s).isSome ↔ 0 ≤ s.width * s.height := by
  unfold RasciiRenderer.construct Texture.create
  split <;> rename_i h <;> simp <;> omega

/-- `RasciiRenderer::generateMatrices` projection part (`render.hpp` lines
199-221).  The `tanf` library call is abstracted as the parameter `tanF`;
the argument passed to it is exactly the source expression
`fov * 0.5f / 180.0f * 3.14159f`. -/
def generateProjectionMatrix (tanF : ℚ → ℚ) (s : RenderSettings) : Matrix :=
  let aspectRatio : ℚ := (s.height : ℚ) / (s.width : ℚ)
  let fovRad : ℚ := 1 / tanF (s.fov * 0.5 / 180 * 3.14159)
  let range : ℚ := s.farPlane - s.nearPlane
  (((((Matrix.identity.set 0 0 (aspectRatio * fovRad)).set 1 1 fovRad).set 2 2
      (s.farPlane / range)).set 3 2 (-s.farPlane * s.nearPlane / range)).set 2 3
      1).set 3 3 0

/-- `RasciiRenderer::generateMatrices` view part (`render.hpp` lines
229-233): scale-and-translate by half width/height. -/
def generateViewMatrix (s : RenderSettings) : Matrix :=
  (((Matrix.identity.set 0 0 ((s.width : ℚ) / 2)).set 1 1
      ((s.height : ℚ) / 2)).set 0 3 ((s.width : ℚ) / 2)).set 1 3 ((s.height : ℚ) / 2)

/-- `prepare()` (`render.hpp` lines 136-139) calls `generateMatrices`;
the renderer's matrices after `prepare()` are the generated projection
and view matrices and their product. -/
def prepareMatrices (tanF : ℚ → ℚ) (s : RenderSettings) : Matrix × Matrix × Matrix :=
  let p := generateProjectionMatrix tanF s
  let v := generateViewMatrix s
  (p, v, p * v)

/-- Claim C4: after `prepare()`, the projection matrix has entries
`[0][0] = (height/width) * fovScale`, `[1][1] = fovScale`,
`[2][2] = far/(far-near)`, `[3][2] = (-far*near)/(far-near)`,
`[2][3] = 1` and `[3][3] = 0`, where `fovScale = 1/tan(fov/2 in radians)`
(the source converts degrees to radians with its constant `3.14159`).
Stated for every abstract `tan` function and every settings record. -/
theorem projection_matrix_entries (tanF : ℚ → ℚ) (s : RenderSettings) :
    (prepareMatrices tanF s).1.entry 0 0 =
        ((s.height : ℚ) / (s.width : ℚ)) * (1 / tanF (s.fov * 0.5 / 180 * 3.14159)) ∧
      (prepareMatrices tanF s).1.entry 1 1 =
        1 / tanF (s.fov * 0.5 / 180 * 3.14159) ∧
      (prepareMatrices tanF s).1.entry 2 2 = s.farPlane / (s.farPlane - s.nearPlane) ∧
      (prepareMatrices tanF s).1.entry 3 2 =
        -s.farPlane * s.nearPlane / (s.farPlane - s.nearPlane) ∧
      (prepareMatrices tanF s).1.entry 2 3 = 1 ∧
      (prepareMatrices tanF s).1.entry 3 3 = 0 :=
  ⟨rfl, rfl, rfl, rfl, rfl, rfl⟩

/-- C's float-to-int conversion: truncation toward zero. -/
def cTrunc (q : ℚ) : ℤ := if 0 ≤ q then ⌊q⌋ else ⌈q⌉

/-- `AsciiRasterizer::_luminanceTableSize` (`raster.hpp` line 141). -/
def luminanceTableSize : ℤ := 10

/-- The palette index computed by `AsciiRasterizer::luminanceToAscii`
(`raster.hpp` line 149): `(int)(luminance * (_luminanceTableSize - 1))`,
with no clamping. -/
def asciiIndex (l : ℚ) : ℤ := cTrunc (l * ((luminanceTableSize : ℚ) - 1))

/-- `AsciiRasterizer::_luminanceTable` (`raster.hpp` line 140): the fixed
10-character palette, darkest to brightest. -/
def luminanceTable : List Char := [' ', '.', ':', '-', '=', '+', '*', '#', '%', '@']

/-- `AsciiRasterizer::luminanceToAscii` (`raster.hpp` lines 147-153):
`_luminanceTable[index]`.  C array indexing outside the bounds of the
10-character table is undefined behaviour, modelled as `none` (a negative
index directly, an index past the end through the out-of-range list
lookup). -/
def luminanceToAscii (l : ℚ) : Option Char :=
  if 0 ≤ asciiIndex l then luminanceTable[(asciiIndex l).toNat]? else none

/-- Channel normalization stays within the unit interval. -/
theorem byteToFloat_bounds (c : Fin 256) : 0 ≤ byteToFloat c ∧ byteToFloat c ≤ 1 := by
  have h : (c.val : ℚ) ≤ 255 := by
    have := c.isLt
    exact_mod_cast Nat.lt_succ_iff.mp this
  constructor
  · unfold byteToFloat
    positivity
  · rw [byteToFloat, div_le_one (by norm_num)]
    exact h

/-- The luminance of every color lies within the unit interval. -/
theorem getLuminance_bounds (c : Color) :
    0 ≤ c.getLuminance ∧ c.getLuminance ≤ 1 := by
  obtain ⟨hr0, hr1⟩ := byteToFloat_bounds c.r
  obtain ⟨hg0, hg1⟩ := byteToFloat_bounds c.g
  obtain ⟨hb0, hb1⟩ := byteToFloat_bounds c.b
  unfold Color.getLuminance
  constructor <;> nlinarith

/-- Claim C9: for every color, the palette index
`(int)(luminance * 9)` computed with no clamping lies within the bounds
of the 10-character palette (0 to 9 inclusive), and `getLuminance` always
returns a value in `[0, 10/9)`. -/
theorem luminance_index_in_bounds (c : Color) :
    0 ≤ c.getLuminance ∧ c.getLuminance < 10 / 9 ∧
      0 ≤ asciiIndex c.getLuminance ∧ asciiIndex c.getLuminance ≤ 9 := by
  obtain ⟨h0, h1⟩ := getLuminance_bounds c
  have harg : c.getLuminance * ((luminanceTableSize : ℚ) - 1) = c.getLuminance * 9 := by
    norm_num [luminanceTableSize]
  have hidx : asciiIndex c.getLuminance = ⌊c.getLuminance * 9⌋ := by
    rw [asciiIndex, harg, cTrunc, if_pos (by nlinarith)]
  refine ⟨h0, by nlinarith, ?_, ?_⟩
  · rw [hidx]
    exact Int.floor_nonneg.mpr (by nlinarith)
  · rw [hidx]
    calc ⌊c.getLuminance * 9⌋ ≤ ⌊(9 : ℚ)⌋ := Int.floor_mono (by nlinarith)
      _ = 9 := by norm_num

/-- Claim C8: for every luminance value in `[0, 1]`, `luminanceToAscii`
returns the character of the palette at index `floor(luminance * 9)`,
which already lies in `[0, 9]` (so clamping to `[0, 9]` is the identity
on this range), and in particular `luminanceToAscii 0 = ' '` and
`luminanceToAscii 1 = '@'`. -/
theorem luminanceToAscii_floor :
    (∀ l : ℚ, 0 ≤ l → l ≤ 1 →
        0 ≤ ⌊l * 9⌋ ∧ ⌊l * 9⌋ ≤ 9 ∧
          luminanceToAscii l = luminanceTable[(⌊l * 9⌋).toNat]? ∧
          (luminanceToAscii l).isSome = true) ∧
      luminanceToAscii 0 = some ' ' ∧ luminanceToAscii 1 = some '@' := by
  have key : ∀ l : ℚ, 0 ≤ l → l ≤ 1 →
      0 ≤ ⌊l * 9⌋ ∧ ⌊l * 9⌋ ≤ 9 ∧
        luminanceToAscii l = luminanceTable[(⌊l * 9⌋).toNat]? ∧
        (luminanceToAscii l).isSome = true := by
    intro l hl0 hl1
    have harg : l * ((luminanceTableSize : ℚ) - 1) = l * 9 := by
      norm_num [luminanceTableSize]
    have hidx : asciiIndex l = ⌊l * 9⌋ := by
      rw [asciiIndex, harg, cTrunc, if_pos (by nlinarith)]
    have hge : 0 ≤ ⌊l * 9⌋ := Int.floor_nonneg.mpr (by nlinarith)
    have hle : ⌊l * 9⌋ ≤ 9 := by
      calc ⌊l * 9⌋ ≤ ⌊(9 : ℚ)⌋ := Int.floor_mono (by nlinarith)
        _ = 9 := by norm_num
    have heq : luminanceToAscii l = luminanceTable[(⌊l * 9⌋).toNat]? := by
      rw [luminanceToAscii, hidx, if_pos hge]
    refine ⟨hge, hle, heq, ?_⟩
    rw [heq]
    have hlt : (⌊l * 9⌋).toNat < luminanceTable.length := by
      simp only [luminanceTable, List.length]
      omega
    rw [List.getElem?_eq_getElem hlt]
    rfl
  refine ⟨key, ?_, ?_⟩
  · have h := (key 0 le_rfl zero_le_one).2.2.1
    rw [h]
    norm_num
    rfl
  · have h := (key 1 zero_le_one le_rfl).2.2.1
    rw [h]
    norm_num
    rfl

/-- Claim C8 witness: the theorem instantiated at luminance `1/2`. -/
theorem luminanceToAscii_floor_witness :
    0 ≤ ⌊(1 / 2 : ℚ) * 9⌋ ∧ ⌊(1 / 2 : ℚ) * 9⌋ ≤ 9 ∧
      luminanceToAscii (1 / 2) = luminanceTable[(⌊(1 / 2 : ℚ) * 9⌋).toNat]? ∧
      (luminanceToAscii (1 / 2)).isSome = true :=
  luminanceToAscii_floor.1 (1 / 2) (by norm_num) (by norm_num)

/-- The three-element bubble sort by `y` at the start of
`TextureDrawer::fillTriangle` (`tex.hpp` lines 370-383): compare-and-swap
positions (0,1), then (1,2), then (0,1) again, swapping on strict `>`.
Points are `(x, y)` pairs of floats. -/
def ySort3 (p1 p2 p3 : ℚ × ℚ) : (ℚ × ℚ) × (ℚ × ℚ) × (ℚ × ℚ) :=
  let (a, b) := if p1.2 > p2.2 then (p2, p1) else (p1, p2)
  let (b, c) := if b.2 > p3.2 then (p3, b) else (b, p3)
  let (a, b) := if a.2 > b.2 then (b, a) else (a, b)
  (a, b, c)

/-- The three slope denominators that `fillTriangle` divides by
unconditionally (`tex.hpp` lines 391-393): `middle.y - top.y`,
`bottom.y - top.y` and `bottom.y - middle.y` for the y-sorted points. -/
def fillTriangleSlopeDenoms (p1 p2 p3 : ℚ × ℚ) : List ℚ :=
  let s := ySort3 p1 p2 p3
  let top := s.1
  let middle := s.2.1
  let bottom := s.2.2
  [middle.2 - top.2, bottom.2 - top.2, bottom.2 - middle.2]

/-- Claim C2 counterexample: at the degenerate call
`fillTriangle((0,0), (1,0), (2,5))`, where the two lowest points share
`y = 0` after sorting, the source still computes
`topToMiddleSlope = (middle.x - top.x) / (middle.y - top.y)` with
denominator exactly `0` — there is no special case: the slope divisions
run unconditionally before either scanline loop. -/
theorem fillTriangle_divides_by_zero :
    fillTriangleSlopeDenoms (0, 0) (1, 0) (2, 5) = [0, 5, 5] ∧
      (0 : ℚ) ∈ fillTriangleSlopeDenoms (0, 0) (1, 0) (2, 5) := by
  constructor
  · norm_num [fillTriangleSlopeDenoms, ySort3]
  · norm_num [fillTriangleSlopeDenoms, ySort3]

/-- `ySort3` specialised to integer-coordinate points. -/
def ySort3Int (p1 p2 p3 : ℤ × ℤ) : (ℤ × ℤ) × (ℤ × ℤ) × (ℤ × ℤ) :=
  let (a, b) := if p1.2 > p2.2 then (p2, p1) else (p1, p2)
  let (b, c) := if b.2 > p3.2 then (p3, b) else (b, p3)
  let (a, b) := if a.2 > b.2 then (b, a) else (a, b)
  (a, b, c)

/-- The horizontal spans `(x1, y, x2)` drawn by the top half of
`fillTriangle` (`tex.hpp` lines 396-401) for integer-coordinate input
points: `for (int y = top.y; y < middle.y; y++)` draws from
`top.x + (y - top.y) * topToMiddleSlope` to
`top.x + (y - top.y) * topToBottomSlope` (both truncated to `int`).
Slopes are modelled in exact rational arithmetic. -/
def fillTriangleTopSpans (p1 p2 p3 : ℤ × ℤ) : List (ℤ × ℤ × ℤ) :=
  let s := ySort3Int p1 p2 p3
  let top := s.1
  let middle := s.2.1
  let bottom := s.2.2
  let topToMiddleSlope : ℚ := ((middle.1 : ℚ) - (top.1 : ℚ)) / ((middle.2 : ℚ) - (top.2 : ℚ))
  let topToBottomSlope : ℚ := ((bottom.1 : ℚ) - (top.1 : ℚ)) / ((bottom.2 : ℚ) - (top.2 : ℚ))
  (List.range (middle.2 - top.2).toNat).map fun i : ℕ =>
    let y : ℤ := top.2 + (i : ℤ)
    (cTrunc ((top.1 : ℚ) + ((y : ℚ) - (top.2 : ℚ)) * topToMiddleSlope), y,
      cTrunc ((top.1 : ℚ) + ((y : ℚ) - (top.2 : ℚ)) * topToBottomSlope))

/-- The horizontal spans drawn by the bottom half of `fillTriangle`
(`tex.hpp` lines 404-409): `for (int y = middle.y; y < bottom.y; y++)`
draws from `middle.x + (y - middle.y) * middleToBottomSlope` to
`top.x + (y - top.y) * topToBottomSlope`. -/
def fillTriangleBottomSpans (p1 p2 p3 : ℤ × ℤ) : List (ℤ × ℤ × ℤ) :=
  let s := ySort3Int p1 p2 p3
  let top := s.1
  let middle := s.2.1
  let bottom := s.2.2
  let topToBottomSlope : ℚ := ((bottom.1 : ℚ) - (top.1 : ℚ)) / ((bottom.2 : ℚ) - (top.2 : ℚ))
  let middleToBottomSlope : ℚ :=
    ((bottom.1 : ℚ) - (middle.1 : ℚ)) / ((bottom.2 : ℚ) - (middle.2 : ℚ))
  (List.range (bottom.2 - middle.2).toNat).map fun i : ℕ =>
    let y : ℤ := middle.2 + (i : ℤ)
    (cTrunc ((middle.1 : ℚ) + ((y : ℚ) - (middle.2 : ℚ)) * middleToBottomSlope), y,
      cTrunc ((top.1 : ℚ) + ((y : ℚ) - (top.2 : ℚ)) * topToBottomSlope))

/-- Claim C2 (amended): `fillTriangle` computes all three edge slopes
unconditionally, so a degenerate triangle performs a division whose
denominator is exactly 0 (IEEE float division, yielding an infinity or
NaN rather than trapping); no special case exists.  However, for
integer-coordinate points, the half of the triangle whose edge has the
zero denominator generates zero scanlines — its loop range is empty — so
the unguarded slope value never reaches a drawing call. -/
theorem fillTriangle_degenerate_half_empty (p1 p2 p3 : ℤ × ℤ) :
    ((ySort3Int p1 p2 p3).2.1.2 = (ySort3Int p1 p2 p3).1.2 →
        fillTriangleTopSpans p1 p2 p3 = []) ∧
      ((ySort3Int p1 p2 p3).2.2.2 = (ySort3Int p1 p2 p3).2.1.2 →
        fillTriangleBottomSpans p1 p2 p3 = []) := by
  constructor
  · intro h
    simp only [fillTriangleTopSpans, h, sub_self, Int.toNat_zero, List.range_zero,
      List.map_nil]
  · intro h
    simp only [fillTriangleBottomSpans, h, sub_self, Int.toNat_zero, List.range_zero,
      List.map_nil]

/-- Claim C2 (amended) witness: the degenerate triangle
`(0,0), (1,0), (2,5)` has its two lowest points on `y = 0`; its top half
draws no scanline. -/
theorem fillTriangle_degenerate_half_empty_witness :
    (ySort3Int (0, 0) (1, 0) (2, 5)).2.1.2 = (ySort3Int (0, 0) (1, 0) (2, 5)).1.2 ∧
      fillTriangleTopSpans (0, 0) (1, 0) (2, 5) = [] :=
  ⟨by decide, (fillTriangle_degenerate_half_empty (0, 0) (1, 0) (2, 5)).1 (by decide)⟩

/-- The `while (true)` loop of `TextureDrawer::drawLine` (`tex.hpp` lines
317-335), with an explicit fuel bound on the number of iterations.
Each iteration plots `(x1, y1)`, stops after plotting when the endpoint
is reached, and otherwise advances `x1` and/or `y1` exactly as the
source's two `if` tests on `e2 = 2 * err` do.  The returned list is the
sequence of plotted pixels; `none` means the fuel ran out before the loop
terminated. -/
def lineLoop (x2 y2 dx dy sx sy : ℤ) : Nat → ℤ → ℤ → ℤ → Option (List (ℤ × ℤ))
  | 0, _, _, _ => none
  | fuel + 1, x1, y1, err =>
    if x1 = x2 ∧ y1 = y2 then some [(x1, y1)]
    else
      let e2 := 2 * err
      let x1n := if e2 > -dy then x1 + sx else x1
      let errA := if e2 > -dy then err - dy else err
      let y1n := if e2 < dx then y1 + sy else y1
      let errB := if e2 < dx then errA + dx else errA
      Option.map (fun l => (x1, y1) :: l) (lineLoop x2 y2 dx dy sx sy fuel x1n y1n errB)

/-- `TextureDrawer::drawLine(x1, y1, x2, y2, c)` (`tex.hpp` lines
308-336): Bresenham setup (`dx = |x2 - x1|`, `dy = |y2 - y1|`, steps
`sx`, `sy`, `err = dx - dy`) followed by the plotting loop.  Returns the
pixels the call writes, in order. -/
def drawLinePixels (x1 y1 x2 y2 : ℤ) (fuel : Nat) : Option (List (ℤ × ℤ)) :=
  let dx := |x2 - x1|
  let dy := |y2 - y1|
  let sx : ℤ := if x1 < x2 then 1 else -1
  let sy : ℤ := if y1 < y2 then 1 else -1
  lineLoop x2 y2 dx dy sx sy fuel x1 y1 (dx - dy)

/-- Claim C7 counterexample: `drawLine(0,0,4,2,c)` and `drawLine(4,2,0,0,c)`
write different pixel sets: the forward call writes `(1,0)` and `(3,1)`,
the swapped call writes `(1,1)` and `(3,2)` instead. -/
theorem drawLine_not_symmetric :
    drawLinePixels 0 0 4 2 7 = some [(0, 0), (1, 0), (2, 1), (3, 1), (4, 2)] ∧
      drawLinePixels 4 2 0 0 7 = some [(4, 2), (3, 2), (2, 1), (1, 1), (0, 0)] ∧
      ((1, 0) ∈ [(0, 0), (1, 0), (2, 1), (3, 1), (4, 2)] ∧
        (1, 0) ∉ [(4, 2), (3, 2), (2, 1), (1, 1), (0, 0)]) := by
  refine ⟨by decide, by decide, by decide⟩

/-- Invariant-carrying specification of the drawLine loop.  With
`a = sx * (x2 - x1)` and `b = sy * (y2 - y1)` the remaining (signed)
distances, the loop maintains `0 ≤ a ≤ dx`, `0 ≤ b ≤ dy` and the error
relation `err = dx - dy + dy * a - dx * b`, and `a + b` strictly
decreases every iteration, so with fuel exceeding `a + b` the loop
terminates having plotted both the current point and the endpoint. -/
theorem lineLoop_spec (x2 y2 dx dy sx sy : ℤ)
    (hsx : sx = 1 ∨ sx = -1) (hsy : sy = 1 ∨ sy = -1) :
    ∀ (fuel : Nat) (x1 y1 err : ℤ),
      0 ≤ sx * (x2 - x1) → sx * (x2 - x1) ≤ dx →
      0 ≤ sy * (y2 - y1) → sy * (y2 - y1) ≤ dy →
      err = dx - dy + dy * (sx * (x2 - x1)) - dx * (sy * (y2 - y1)) →
      (sx * (x2 - x1) + sy * (y2 - y1)).toNat < fuel →
      ∃ l, lineLoop x2 y2 dx dy sx sy fuel x1 y1 err = some l ∧
        (x1, y1) ∈ l ∧ (x2, y2) ∈ l := by
  intro fuel
  induction fuel with
  | zero =>
    intro x1 y1 err _ _ _ _ _ hf
    exact absurd hf (Nat.not_lt_zero _)
  | succ n ih =>
    intro x1 y1 err ha0 had hb0 hbd herr hf
    by_cases hend : x1 = x2 ∧ y1 = y2
    · exact ⟨[(x1, y1)], by simp [lineLoop, hend], by simp, by simp [hend.1, hend.2]⟩
    · have hxa : sx * (x2 - x1) = 0 → x1 = x2 := by
        rcases hsx with h | h <;> subst h <;> intro h0 <;> omega
      have hya : sy * (y2 - y1) = 0 → y1 = y2 := by
        rcases hsy with h | h <;> subst h <;> intro h0 <;> omega
      have hab : 1 ≤ sx * (x2 - x1) + sy * (y2 - y1) := by
        by_contra hcon
        push_neg at hcon
        have hcon' : sx * (x2 - x1) + sy * (y2 - y1) + 1 ≤ 1 :=
          Int.lt_iff_add_one_le.mp hcon
        have h1 : sx * (x2 - x1) = 0 := le_antisymm (by linarith) ha0
        have h2 : sy * (y2 - y1) = 0 := le_antisymm (by linarith) hb0
        exact hend ⟨hxa h1, hya h2⟩
      have hfuel2 : ∀ A B : ℤ, 1 ≤ A → 1 ≤ B → (A + B).toNat < n + 1 →
          (A - 1 + (B - 1)).toNat < n := by
        intro A B h1 h2 h3
        omega
      have hfuelx : ∀ A B : ℤ, 1 ≤ A → 0 ≤ B → (A + B).toNat < n + 1 →
          (A - 1 + B).toNat < n := by
        intro A B h1 h2 h3
        omega
      have hfuely : ∀ A B : ℤ, 0 ≤ A → 1 ≤ B → (A + B).toNat < n + 1 →
          (A + (B - 1)).toNat < n := by
        intro A B h1 h2 h3
        omega
      have hstepx : -dy < 2 * err → 1 ≤ sx * (x2 - x1) := by
        intro hc
        by_contra hlt
        push_neg at hlt
        have hc1 : sx * (x2 - x1) + 1 ≤ 1 := Int.lt_iff_add_one_le.mp hlt
        have hA0 : sx * (x2 - x1) = 0 := le_antisymm (by linarith) ha0
        have hB1 : 1 ≤ sy * (y2 - y1) := by linarith
        have hdx0 : 0 ≤ dx := by linarith
        have hdy1 : 1 ≤ dy := by linarith
        have hP : dx ≤ dx * (sy * (y2 - y1)) := le_mul_of_one_le_right hdx0 hB1
        rw [hA0] at herr
        nlinarith [herr, hc, hP, hdy1]
      have hstepy : 2 * err < dx → 1 ≤ sy * (y2 - y1) := by
        intro hc
        by_contra hlt
        push_neg at hlt
        have hc1 : sy * (y2 - y1) + 1 ≤ 1 := Int.lt_iff_add_one_le.mp hlt
        have hB0 : sy * (y2 - y1) = 0 := le_antisymm (by linarith) hb0
        have hA1 : 1 ≤ sx * (x2 - x1) := by linarith
        have hdy0 : 0 ≤ dy := by linarith
        have hdx1 : 1 ≤ dx := by linarith
        have hQ : dy ≤ dy * (sx * (x2 - x1)) := le_mul_of_one_le_right hdy0 hA1
        rw [hB0] at herr
        nlinarith [herr, hc, hQ, hdx1]
      have ha' : sx * (x2 - (x1 + sx)) = sx * (x2 - x1) - 1 := by
        rcases hsx with h | h <;> subst h <;> ring
      have hb' : sy * (y2 - (y1 + sy)) = sy * (y2 - y1) - 1 := by
        rcases hsy with h | h <;> subst h <;> ring
      by_cases hcx : -dy < 2 * err
      · by_cases hcy : 2 * err < dx
        · have hA1 := hstepx hcx
          have hB1 := hstepy hcy
          obtain ⟨l, hl, hm1, hm2⟩ := ih (x1 + sx) (y1 + sy) (err - dy + dx)
            (by rw [ha']; linarith)
            (by rw [ha']; linarith)
            (by rw [hb']; linarith)
            (by rw [hb']; linarith)
            (by rw [ha', hb', herr]; ring)
            (by rw [ha', hb']; exact hfuel2 _ _ hA1 hB1 hf)
          refine ⟨(x1, y1) :: l, ?_, List.mem_cons_self _ _, List.mem_cons_of_mem _ hm2⟩
          simp [lineLoop, hend, hcx, hcy, hl]
        · have hA1 := hstepx hcx
          obtain ⟨l, hl, hm1, hm2⟩ := ih (x1 + sx) y1 (err - dy)
            (by rw [ha']; linarith)
            (by rw [ha']; linarith)
            hb0 hbd
            (by rw [ha', herr]; ring)
            (by rw [ha']; exact hfuelx _ _ hA1 hb0 hf)
          refine ⟨(x1, y1) :: l, ?_, List.mem_cons_self _ _, List.mem_cons_of_mem _ hm2⟩
          simp [lineLoop, hend, hcx, hcy, hl]
      · by_cases hcy : 2 * err < dx
        · have hB1 := hstepy hcy
          obtain ⟨l, hl, hm1, hm2⟩ := ih x1 (y1 + sy) (err + dx)
            ha0 had
            (by rw [hb']; linarith)
            (by rw [hb']; linarith)
            (by rw [hb', herr]; ring)
            (by rw [hb']; exact hfuely _ _ ha0 hB1 hf)
          refine ⟨(x1, y1) :: l, ?_, List.mem_cons_self _ _, List.mem_cons_of_mem _ hm2⟩
          simp [lineLoop, hend, hcx, hcy, hl]
        · exfalso
          push_neg at hcx hcy
          linarith

/-- For every pair of endpoints, `drawLine` with fuel
`|x2 - x1| + |y2 - y1| + 1` terminates and the plotted pixels include
both endpoints. -/
theorem drawLinePixels_spec (x1 y1 x2 y2 : ℤ) :
    ∃ l, drawLinePixels x1 y1 x2 y2 ((x2 - x1).natAbs + (y2 - y1).natAbs + 1) = some l ∧
      (x1, y1) ∈ l ∧ (x2, y2) ∈ l := by
  have hsx1 : (if x1 < x2 then (1 : ℤ) else -1) = 1 ∨
      (if x1 < x2 then (1 : ℤ) else -1) = -1 := by
    split
    · exact Or.inl rfl
    · exact Or.inr rfl
  have hsy1 : (if y1 < y2 then (1 : ℤ) else -1) = 1 ∨
      (if y1 < y2 then (1 : ℤ) else -1) = -1 := by
    split
    · exact Or.inl rfl
    · exact Or.inr rfl
  have habsx : (if x1 < x2 then (1 : ℤ) else -1) * (x2 - x1) = |x2 - x1| := by
    split <;> rename_i h
    · rw [one_mul, abs_of_nonneg (by omega)]
    · rw [abs_of_nonpos (by omega)]
      ring
  have habsy : (if y1 < y2 then (1 : ℤ) else -1) * (y2 - y1) = |y2 - y1| := by
    split <;> rename_i h
    · rw [one_mul, abs_of_nonneg (by omega)]
    · rw [abs_of_nonpos (by omega)]
      ring
  obtain ⟨l, hl, hm1, hm2⟩ :=
    lineLoop_spec x2 y2 |x2 - x1| |y2 - y1|
      (if x1 < x2 then (1 : ℤ) else -1) (if y1 < y2 then (1 : ℤ) else -1) hsx1 hsy1
      ((x2 - x1).natAbs + (y2 - y1).natAbs + 1) x1 y1 (|x2 - x1| - |y2 - y1|)
      (by rw [habsx]; exact abs_nonneg _)
      (by rw [habsx])
      (by rw [habsy]; exact abs_nonneg _)
      (by rw [habsy])
      (by rw [habsx, habsy]; ring)
      (by rw [habsx, habsy, Int.abs_eq_natAbs, Int.abs_eq_natAbs]; omega)
  exact ⟨l, hl, hm1, hm2⟩

/-- Claim C10: `drawLine` terminates for every pair of integer endpoints:
the `while (true)` loop reaches `x1 == x2 && y1 == y2` within
`|x2 - x1| + |y2 - y1| + 1` iterations, never running out of fuel at that
bound. -/
theorem drawLine_terminates (x1 y1 x2 y2 : ℤ) :
    ∃ l, drawLinePixels x1 y1 x2 y2 ((x2 - x1).natAbs + (y2 - y1).natAbs + 1) = some l := by
  obtain ⟨l, hl, -, -⟩ := drawLinePixels_spec x1 y1 x2 y2
  exact ⟨l, hl⟩

/-- Claim C7 (amended): `drawLine` called in either endpoint order
terminates and writes both endpoints, but the two pixel sets need not be
equal (see the counterexample at `(0,0)-(4,2)`). -/
theorem drawLine_endpoints_either_order (x1 y1 x2 y2 : ℤ) :
    (∃ l, drawLinePixels x1 y1 x2 y2 ((x2 - x1).natAbs + (y2 - y1).natAbs + 1) = some l ∧
        (x1, y1) ∈ l ∧ (x2, y2) ∈ l) ∧
      (∃ l, drawLinePixels x2 y2 x1 y1 ((x1 - x2).natAbs + (y1 - y2).natAbs + 1) = some l ∧
        (x2, y2) ∈ l ∧ (x1, y1) ∈ l) :=
  ⟨drawLinePixels_spec x1 y1 x2 y2, drawLinePixels_spec x2 y2 x1 y1⟩

end Rascii
